import Mathlib

/-!
Verification of the profile data model, the merge engine, and the settings
cache of the node-inno-help library, against its natural-language
specification.

The JavaScript source is embedded shallowly: objects become structures,
in-place mutation becomes explicit state passing, thrown exceptions become
`Except String` (or a `Profile × Option String` pair where the partially
mutated state after an exception is observable), and JavaScript objects
used as string-keyed dictionaries become association lists whose key order
models JavaScript property-insertion order.  Values stored in attributes,
event data and session data are opaque: everything is parametric in a type
`V`.  The deep copies taken by `Profile.merge` (spec, section 4.2, step 1:
independent copies, no aliasing between the two graphs) are value copies,
which in a purely functional embedding are the identity.

The files attribute.js, event.js, cache.js and id-generator.js of the
library are not part of the given sources; the corresponding definitions
below are modelled from the spec and marked as such in their doc comments.
-/

namespace Inno

variable {V : Type}

/-- One entry of a JavaScript object used as a dictionary: key and value.
JavaScript property assignment keeps the position of an existing key and
appends a fresh key at the end; `dataSet` models a single assignment
`d[k] = v`. -/
def dataSet : List (String × V) → String → V → List (String × V)
  | [], k, v => [(k, v)]
  | kv :: d, k, v => if kv.1 = k then (kv.1, v) :: d else kv :: dataSet d k v

/-- First-match lookup in a JavaScript-object-as-dictionary. -/
def lookupData : List (String × V) → String → Option V
  | [], _ => none
  | kv :: d, k => if kv.1 = k then some kv.2 else lookupData d k

/-- The keys of a dictionary, in property order. -/
def dataKeys (d : List (String × V)) : List String :=
  d.map Prod.fst

/-- Shallow key-overwrite merge of dictionaries, as done by the merge
utility used in Session.prototype.setData: every own key of `new` is
assigned into `old` in order. -/
def mergeData (old new : List (String × V)) : List (String × V) :=
  new.foldl (fun acc kv => dataSet acc kv.1 kv.2) old

/-- Attribute (libs/attribute.js, not among the given sources).
Modelled from the spec: an attribute is
`(collectApp, section, name, value)` with identity key
`(collectApp, section, name)`; the value is mutable in place. -/
structure Attribute (V : Type) where
  collectApp : String
  sectionName : String
  name : String
  value : V
  deriving DecidableEq

/-- Modelled from the spec: an Attribute is valid iff collectApp, section
and name are all non-empty (attribute.js is not among the given sources). -/
def Attribute.isValid (a : Attribute V) : Bool :=
  !(a.collectApp == "") && !(a.sectionName == "") && !(a.name == "")

/-- Event (libs/event.js, not among the given sources).  Modelled from the
spec: `(id, definitionId, data, createdAt, modifiedAt)`, identity key `id`. -/
structure Event (V : Type) where
  id : String
  definitionId : String
  data : List (String × V)
  createdAt : Nat
  modifiedAt : Nat
  deriving DecidableEq

/-- Modelled from the spec: an Event is valid iff id and definitionId are
present (event.js is not among the given sources). -/
def Event.isValid (e : Event V) : Bool :=
  !(e.id == "") && !(e.definitionId == "")

/-- Modelled from the spec: serialization of an Event lists its plain
fields (event.js is not among the given sources). -/
def Event.serialize (e : Event V) : Event V :=
  { id := e.id, definitionId := e.definitionId, data := e.data,
    createdAt := e.createdAt, modifiedAt := e.modifiedAt }

/-- Session, from session.js (src/unnamed/part_001). -/
structure Session (V : Type) where
  id : String
  collectApp : String
  sectionName : String
  data : List (String × V)
  events : List (Event V)
  createdAt : Nat
  modifiedAt : Nat
  deriving DecidableEq

/-- Session.prototype.setData: `this.data = merge(this.data, data || {})` —
a cumulative shallow merge, not a replacement. -/
def Session.setData (s : Session V) (d : List (String × V)) : Session V :=
  { s with data := mergeData s.data d }

/-- Session.prototype.isValid: id, section, collectApp and createdAt must
all be truthy. -/
def Session.isValid (s : Session V) : Bool :=
  !(s.id == "") && !(s.sectionName == "") && !(s.collectApp == "") && !(s.createdAt == 0)

/-- Session.prototype.getEvent: filter events by id and take the first. -/
def Session.getEvent (s : Session V) (eventId : String) : Option (Event V) :=
  (s.events.filter (fun e => e.id == eventId)).head?

/-- Update of the first event with the given id as done by
`existEvent.setData(event.getData()); existEvent.setDefinitionId(...)`
inside Session.prototype.addEvent: data and definitionId are overwritten,
position is kept. -/
def updAddEvent : List (Event V) → Event V → List (Event V)
  | [], _ => []
  | x :: es, e =>
    if x.id = e.id then { x with data := e.data, definitionId := e.definitionId } :: es
    else x :: updAddEvent es e

/-- Update of the first event with the given id as done by
`newEvent.setData(localEvent.getData())` inside Profile.prototype.merge:
only data is overwritten (modelled from the spec: the merge overwrites the
matched event's data only and does not touch definitionId). -/
def updEventData : List (Event V) → Event V → List (Event V)
  | [], _ => []
  | x :: es, e => if x.id = e.id then { x with data := e.data } :: es else x :: updEventData es e

/-- Session.prototype.addEvent.  Returns the event the source returns (the
updated existing event, or the pushed one) together with the new session
state; an invalid event raises. -/
def Session.addEvent (s : Session V) (e : Event V) : Except String (Event V × Session V) :=
  if e.isValid then
    match s.getEvent e.id with
    | some ex =>
        .ok ({ ex with data := e.data, definitionId := e.definitionId },
             { s with events := updAddEvent s.events e })
    | none => .ok (e, { s with events := s.events ++ [e] })
  else .error "Event is not valid"

/-- Session.prototype.serialize together with serializeEvents. -/
def Session.serialize (s : Session V) : Session V :=
  { id := s.id, sectionName := s.sectionName, collectApp := s.collectApp,
    data := s.data, events := s.events.map Event.serialize,
    createdAt := s.createdAt, modifiedAt := s.modifiedAt }

/-- Stand-in for the random identifier generator (out of scope per the
spec; modelled from the spec as some fixed-length string).  It is only
reached when an id is absent, which the theorems below exclude. -/
def genId (len : Nat) : String :=
  String.mk (List.replicate len 'x')

/-- Modelled from the spec: reconstructing an Event from a previously
serialized form preserves supplied identifiers and timestamps and fills
absent ones (event.js is not among the given sources). -/
def Event.reconstruct (now : Nat) (c : Event V) : Event V :=
  { id := if c.id = "" then genId 8 else c.id,
    definitionId := c.definitionId,
    data := c.data,
    createdAt := if c.createdAt = 0 then now else c.createdAt,
    modifiedAt := if c.modifiedAt = 0 then now else c.modifiedAt }

/-- The Session constructor applied to a previously serialized session:
absent id, collectApp and timestamps get defaults, data is admitted through
setData starting from an empty object, events are rebuilt one by one. -/
def Session.reconstruct (now : Nat) (c : Session V) : Session V :=
  { id := if c.id = "" then genId 8 else c.id,
    data := mergeData [] c.data,
    collectApp := if c.collectApp = "" then "web" else c.collectApp,
    sectionName := c.sectionName,
    createdAt := if c.createdAt = 0 then now else c.createdAt,
    modifiedAt := if c.modifiedAt = 0 then now else c.modifiedAt,
    events := c.events.map (Event.reconstruct now) }

/-- Profile, from libs/profile.js. -/
structure Profile (V : Type) where
  id : String
  attributes : List (Attribute V)
  sessions : List (Session V)
  deriving DecidableEq

/-- Profile.prototype.getId: `this.id || null`. -/
def Profile.getId (p : Profile V) : Option String :=
  if p.id = "" then none else some p.id

/-- The filter condition of Profile.prototype.getAttributes for a given
collectApp / section pair (empty strings play the role of absent
arguments, matching JavaScript truthiness). -/
def Attribute.checkCond (a : Attribute V) (collectApp sectionName : String) : Bool :=
  if !(collectApp == "") && !(sectionName == "") then
    a.collectApp == collectApp && a.sectionName == sectionName
  else if !(collectApp == "") then a.collectApp == collectApp
  else if !(sectionName == "") then a.sectionName == sectionName
  else true

/-- Profile.prototype.getAttributes. -/
def Profile.getAttributes (p : Profile V) (collectApp sectionName : String) : List (Attribute V) :=
  if collectApp == "" && sectionName == "" then p.attributes
  else p.attributes.filter (fun a => a.checkCond collectApp sectionName)

/-- Profile.prototype.getAttribute: demands all three identity components,
then filters and takes the first match. -/
def Profile.getAttribute (p : Profile V) (name collectApp sectionName : String) :
    Except String (Option (Attribute V)) :=
  if name == "" || collectApp == "" || sectionName == "" then
    .error "Name, collectApp and section should be filled to get attribute"
  else
    .ok ((p.getAttributes collectApp sectionName).filter (fun a => a.name == name)).head?

/-- First attribute of a list with the given identity key. -/
def listFindAttr (l : List (Attribute V)) (collectApp sectionName name : String) :
    Option (Attribute V) :=
  l.find? (fun a =>
    a.name == name && a.collectApp == collectApp && a.sectionName == sectionName)

/-- First attribute with the given identity key; the observation the
theorems below are phrased with (equal to the success case of
Profile.prototype.getAttribute, see getAttribute_ok below). -/
def Profile.findAttr (p : Profile V) (collectApp sectionName name : String) : Option (Attribute V) :=
  listFindAttr p.attributes collectApp sectionName name

/-- The identity keys of a list of attributes, in order. -/
def attrKeys (l : List (Attribute V)) : List (String × String × String) :=
  l.map (fun a => (a.collectApp, a.sectionName, a.name))

/-- The value stored under an attribute identity key, if any. -/
def Profile.attrValue (p : Profile V) (collectApp sectionName name : String) : Option V :=
  (p.findAttr collectApp sectionName name).map Attribute.value

/-- In-place overwrite of the value of the first attribute with the given
identity key, as done by `foundAttr.setValue(attr.getValue())`. -/
def setAttrValue : List (Attribute V) → Attribute V → List (Attribute V)
  | [], _ => []
  | b :: bs, a =>
    if b.name = a.name ∧ b.collectApp = a.collectApp ∧ b.sectionName = a.sectionName then
      { b with value := a.value } :: bs
    else b :: setAttrValue bs a

/-- The loop of Profile.prototype.setAttributes.  An invalid attribute
raises, and the array mutations already performed stay visible (the source
pushes into / mutates the live attributes array), hence the result carries
the state reached when the loop stops together with the error, if any. -/
def Profile.setAttributesLoop : Profile V → List (Attribute V) → Profile V × Option String
  | p, [] => (p, none)
  | p, a :: rest =>
    if a.isValid then
      match p.getAttribute a.name a.collectApp a.sectionName with
      | .error m => (p, some m)
      | .ok (some _) =>
          Profile.setAttributesLoop { p with attributes := setAttrValue p.attributes a } rest
      | .ok none =>
          Profile.setAttributesLoop { p with attributes := p.attributes ++ [a] } rest
    else (p, some "Attribute is not valid")

/-- Profile.prototype.setAttribute: a one-element setAttributes call. -/
def Profile.setAttribute (p : Profile V) (a : Attribute V) : Profile V × Option String :=
  p.setAttributesLoop [a]

/-- The successful body of one setAttributes iteration for a valid
attribute: overwrite the value of the identity-key match if there is one,
append otherwise (see setAttributesLoop_cons_valid below). -/
def admitOne (p : Profile V) (a : Attribute V) : Profile V :=
  match p.findAttr a.collectApp a.sectionName a.name with
  | some _ => { p with attributes := setAttrValue p.attributes a }
  | none => { p with attributes := p.attributes ++ [a] }

/-- Profile.prototype.getSession: filter sessions by id, take the first. -/
def Profile.getSession (p : Profile V) (sessionId : String) : Option (Session V) :=
  (p.sessions.filter (fun s => s.id == sessionId)).head?

/-- Profile.prototype.setSession.  When a session with the same id already
exists, the source merely reassigns its local variable to the argument and
returns it: the stored collection is untouched and the argument itself is
returned.  Otherwise the session is pushed and the pushed element returned.
An invalid session raises. -/
def Profile.setSession (p : Profile V) (s : Session V) : Except String (Profile V × Session V) :=
  if s.isValid then
    match p.getSession s.id with
    | some _ => .ok (p, s)
    | none => .ok ({ p with sessions := p.sessions ++ [s] }, s)
  else .error "Session is not valid"

/-- First event of a list with the given id. -/
def listFindEvent (es : List (Event V)) (eventId : String) : Option (Event V) :=
  es.find? (fun e => e.id == eventId)

/-- One successful iteration of the event loop of Profile.prototype.merge
(see mergeSessionEvents_eq below): overwrite the data of the id match,
append otherwise. -/
def stepEvents (es : List (Event V)) (le : Event V) : List (Event V) :=
  match listFindEvent es le.id with
  | some _ => updEventData es le
  | none => es ++ [le]

/-- The effect one reconciled local event has on the event lookup result
at a fixed id (see listFindEvent_foldl_stepEvents below). -/
def eventScan (i : String) (o : Option (Event V)) (le : Event V) : Option (Event V) :=
  if le.id = i then
    some (match o with | some ne => { ne with data := le.data } | none => le)
  else o

/-- The effect one admitted attribute has on the lookup result at a fixed
identity key (see findAttr_foldl_admitOne below). -/
def admitScan (collectApp sectionName name : String)
    (o : Option (Attribute V)) (a : Attribute V) : Option (Attribute V) :=
  if a.collectApp = collectApp ∧ a.sectionName = sectionName ∧ a.name = name then
    some (match o with | some g => { g with value := a.value } | none => a)
  else o

/-- In-place mutation of the session found by getSession inside
Profile.prototype.merge: the first session with the given id is replaced
by its updated state, keeping its position. -/
def updateSessionById : List (Session V) → String → Session V → List (Session V)
  | [], _, _ => []
  | s :: ss, sid, s2 => if s.id = sid then s2 :: ss else s :: updateSessionById ss sid s2

/-- The inner event loop of Profile.prototype.merge for one shared
session: a local event whose id exists remotely has its data overwritten
on the remote event; otherwise it is appended through addEvent. -/
def Session.mergeSessionEvents : Session V → List (Event V) → Except String (Session V)
  | s, [] => .ok s
  | s, le :: rest =>
    match s.getEvent le.id with
    | some _ => Session.mergeSessionEvents { s with events := updEventData s.events le } rest
    | none =>
      match s.addEvent le with
      | .error m => .error m
      | .ok (_, s2) => Session.mergeSessionEvents s2 rest

/-- The session loop of Profile.prototype.merge over the (copied) local
sessions: a local session whose id exists in the merged set has its data
merged onto the remote session and its events reconciled; otherwise it is
inserted wholesale through setSession. -/
def Profile.mergeLocalSessions : Profile V → List (Session V) → Except String (Profile V)
  | p, [] => .ok p
  | p, ls :: rest =>
    match p.getSession ls.id with
    | some ns =>
      match Session.mergeSessionEvents (ns.setData ls.data) ls.events with
      | .error m => .error m
      | .ok ns2 =>
          Profile.mergeLocalSessions
            { p with sessions := updateSessionById p.sessions ls.id ns2 } rest
    | none =>
      match p.setSession ls with
      | .error m => .error m
      | .ok (p2, _) => Profile.mergeLocalSessions p2 rest

/-- The nested attribute record `{collectApp, section, data}` produced by
Profile.prototype.serialize. -/
structure AttrGroup (V : Type) where
  collectApp : String
  sectionName : String
  data : List (String × V)
  deriving DecidableEq

/-- One step of the grouping loop in Profile.prototype.serialize: the
group holding the attribute's collectApp and section is looked up ((app,
section) pairs are unique in the accumulator, so the scan's match is that
unique group), created at the end if absent, and `data[name] = value` is
assigned into it. -/
def groupStep : List (AttrGroup V) → Attribute V → List (AttrGroup V)
  | [], a => [{ collectApp := a.collectApp, sectionName := a.sectionName,
                data := dataSet [] a.name a.value }]
  | g :: gs, a =>
    if g.collectApp = a.collectApp ∧ g.sectionName = a.sectionName then
      { g with data := dataSet g.data a.name a.value } :: gs
    else g :: groupStep gs a

/-- One iteration of the grouping loop of Profile.prototype.serialize:
invalid attributes are skipped (every element is an Attribute in this
embedding, so the instanceof guard of the source is vacuous). -/
def serAttrStep (gs : List (AttrGroup V)) (a : Attribute V) : List (AttrGroup V) :=
  if a.isValid then groupStep gs a else gs

/-- The attribute part of Profile.prototype.serialize. -/
def serializeAttrs (attrs : List (Attribute V)) : List (AttrGroup V) :=
  attrs.foldl serAttrStep []

/-- The (collectApp, section) keys of a list of nested attribute records,
in order. -/
def groupKeys (gs : List (AttrGroup V)) : List (String × String) :=
  gs.map (fun g => (g.collectApp, g.sectionName))

/-- What serialization guarantees about every nested attribute record it
produces: scope fields are non-empty, the data object is non-empty, its
keys are distinct and non-empty. -/
def wfGroup (g : AttrGroup V) : Prop :=
  g.collectApp ≠ "" ∧ g.sectionName ≠ "" ∧ g.data ≠ [] ∧
    (dataKeys g.data).Nodup ∧ ∀ kv ∈ g.data, kv.1 ≠ ""

/-- The serialized form of a Profile: id, nested attribute records, and
serialized sessions. -/
structure SerializedProfile (V : Type) where
  id : String
  attributes : List (AttrGroup V)
  sessions : List (Session V)
  deriving DecidableEq

/-- Profile.prototype.serialize.  The sessions are serialized and then
their (already serialized) events are mapped through Event serialization
once more, exactly as the source does. -/
def Profile.serialize (p : Profile V) : SerializedProfile V :=
  { id := p.id,
    attributes := serializeAttrs p.attributes,
    sessions := p.sessions.map (fun s =>
      let so := s.serialize
      { so with events := so.events.map Event.serialize }) }

/-- The flat attribute list the Profile constructor builds from the nested
attribute records: one Attribute per key of each record's data, in order. -/
def flattenGroups : List (AttrGroup V) → List (Attribute V)
  | [] => []
  | g :: gs =>
    g.data.map (fun kv =>
      { collectApp := g.collectApp, sectionName := g.sectionName,
        name := kv.1, value := kv.2 }) ++ flattenGroups gs

/-- The Profile constructor applied to a serialized profile: an absent id
is generated, the nested attribute records are flattened, and every
session is rebuilt through the Session constructor. -/
def Profile.ofSerialized (now : Nat) (c : SerializedProfile V) : Profile V :=
  { id := if c.id = "" then genId 32 else c.id,
    attributes := flattenGroups c.attributes,
    sessions := c.sessions.map (Session.reconstruct now) }

/-- Profile.prototype.merge.  The check that the argument is a Profile
instance is enforced by typing here; the id precondition comes first, then
deep copies of both attribute and session collections are taken (value
copies in this embedding), remote attributes are admitted, local
attributes are re-admitted, the session collection is replaced by the
remote one, and the local sessions are folded in. -/
def Profile.merge (p1 p2 : Profile V) : Except String (Profile V) :=
  if p1.getId ≠ p2.getId then .error "Profile IDs should be similar"
  else
    let localAttrs := p1.attributes
    let newAttrs := p2.attributes
    let localSessions := p1.sessions
    let newSessions := p2.sessions
    match p1.setAttributesLoop newAttrs with
    | (_, some m) => .error m
    | (pa, none) =>
      match pa.setAttributesLoop localAttrs with
      | (_, some m) => .error m
      | (pb, none) => Profile.mergeLocalSessions { pb with sessions := newSessions } localSessions

/-- Cache (libs/cache.js, not among the given sources).  Modelled from the
spec: a key to value store remembering the insertion time of every key,
with a configured time-to-live. -/
structure Cache (V : Type) where
  cachedTime : Nat
  entries : List (String × V × Nat)
  deriving DecidableEq

/-- Modelled from the spec: `set(key, value)` stores the value with the
current time as its recorded insertion time. -/
def Cache.set (c : Cache V) (now : Nat) (k : String) (v : V) : Cache V :=
  { c with entries := cacheUpd c.entries now k v }
where cacheUpd : List (String × V × Nat) → Nat → String → V → List (String × V × Nat)
  | [], now, k, v => [(k, v, now)]
  | e :: es, now, k, v => if e.1 = k then (k, v, now) :: es else e :: cacheUpd es now k v

/-- Modelled from the spec: `get(key)` returns the stored value while the
time-to-live has not elapsed and the absent sentinel (here none) once
expired or never set. -/
def Cache.get (c : Cache V) (now : Nat) (k : String) : Option V :=
  match c.entries.find? (fun e => e.1 == k) with
  | some e => if now < e.2.2 + c.cachedTime then some e.2.1 else none
  | none => none

/-- The parsed JSON body a settings response carries: a message (read on
failure statuses) and an optional custom field. -/
structure RespBody (V : Type) where
  message : String
  custom : Option V
  deriving DecidableEq

/-- A settings response: status code and optional body. -/
structure Response (V : Type) where
  statusCode : Nat
  body : Option (RespBody V)
  deriving DecidableEq

/-- checkErrors of libs/index.js: a transport error wins, a missing
response or body is its own error, and a status code outside the allowed
set reports the body's message. -/
def checkErrors (err : Option String) (resp : Option (Response V)) (codes : List Nat) :
    Option String :=
  match err with
  | some m => some m
  | none =>
    match resp with
    | none => some "Response does not contain data"
    | some r =>
      match r.body with
      | none => some "Response does not contain data"
      | some b => if r.statusCode ∈ codes then none else some b.message

/-- What a getAppSettings call produced: whether a remote request was
issued, the error and settings handed to the callback, and the cache state
afterwards. -/
structure SettingsResult (V : Type) where
  requested : Bool
  error : Option String
  settings : Option V
  cache : Cache V
  deriving DecidableEq

/-- getCacheKey of libs/index.js: purpose tag, dash, collect app name. -/
def getCacheKey (name appName : String) : String :=
  (if name = "" then "default" else name) ++ "-" ++ appName

/-- The helper state getAppSettings reads: app name, the no-cache switch
and the cache instance. -/
structure Helper (V : Type) where
  appName : String
  noCache : Bool
  cache : Cache V
  deriving DecidableEq

/-- InnoHelper.prototype.getAppSettings of libs/index.js.  When caching is
allowed and the cache holds an unexpired value under the settings key, the
callback gets that value and no request is issued; otherwise the remote
response is checked (checkErrors, then presence of the custom field,
"CUSTOM not found" otherwise) and a successful result is stored in the
cache when caching is allowed.  The remote exchange is represented by the
callback arguments err and resp. -/
def getAppSettings (h : Helper V) (now : Nat) (err : Option String)
    (resp : Option (Response V)) : SettingsResult V :=
  let cacheAllowed := !h.noCache
  let key := getCacheKey "settings" h.appName
  let cached := if cacheAllowed then h.cache.get now key else none
  match cached with
  | some v => { requested := false, error := none, settings := some v, cache := h.cache }
  | none =>
    match checkErrors err resp [200] with
    | some m => { requested := true, error := some m, settings := none, cache := h.cache }
    | none =>
      match resp.bind Response.body with
      | none => { requested := true, error := some "CUSTOM not found",
                  settings := none, cache := h.cache }
      | some b =>
        match b.custom with
        | none => { requested := true, error := some "CUSTOM not found",
                    settings := none, cache := h.cache }
        | some v =>
          { requested := true, error := none, settings := some v,
            cache := if cacheAllowed then h.cache.set now key v else h.cache }

/-- InnoHelper.prototype.getAppSettings of the older src/index.js.  Same
remote pipeline (its validateObject tests truthiness of body.custom, which
for an opaque value type coincides with presence), but the cache read is
guarded by `if (!allowCache)`: the cache is consulted only when caching is
disabled, and a fresh result is stored only when caching is allowed.  The
cache key there is the concatenation without a dash. -/
def oldGetAppSettings (appName : String) (noCache : Bool) (cache : Cache V) (now : Nat)
    (err : Option String) (resp : Option (Response V)) : SettingsResult V :=
  let allowCache := !noCache
  let key := "settings" ++ appName
  let cached := if !allowCache then cache.get now key else none
  match cached with
  | some v => { requested := false, error := none, settings := some v, cache := cache }
  | none =>
    match checkErrors err resp [200] with
    | some m => { requested := true, error := some m, settings := none, cache := cache }
    | none =>
      match resp.bind Response.body with
      | none => { requested := true, error := some "CUSTOM not found",
                  settings := none, cache := cache }
      | some b =>
        match b.custom with
        | none => { requested := true, error := some "CUSTOM not found",
                    settings := none, cache := cache }
        | some v =>
          { requested := true, error := none, settings := some v,
            cache := if allowCache then cache.set now key v else cache }

/-! Basic lemmas about lookups and dictionary updates. -/

theorem find?_pred_congr {p q : α → Bool} (h : ∀ x, p x = q x) (l : List α) :
    l.find? p = l.find? q := by
  induction l with
  | nil => rfl
  | cons x xs ih => cases hq : q x <;> simp [List.find?_cons, h x, hq, ih]

theorem head?_filter (p : α → Bool) (l : List α) :
    (l.filter p).head? = l.find? p := by
  induction l with
  | nil => rfl
  | cons x xs ih => cases hp : p x <;> simp [List.filter_cons, List.find?_cons, hp, ih]

theorem head?_filter_filter (p q : α → Bool) (l : List α) :
    ((l.filter p).filter q).head? = l.find? (fun x => p x && q x) := by
  rw [head?_filter]
  induction l with
  | nil => rfl
  | cons x xs ih =>
    cases hp : p x <;> cases hq : q x <;>
      simp [List.filter_cons, List.find?_cons, hp, hq, ih]

theorem getSession_eq_find? (p : Profile V) (sid : String) :
    p.getSession sid = p.sessions.find? (fun s => s.id == sid) :=
  head?_filter _ _

theorem getEvent_eq_find? (s : Session V) (eid : String) :
    s.getEvent eid = s.events.find? (fun e => e.id == eid) :=
  head?_filter _ _

theorem getAttribute_ok (p : Profile V) (name app sec : String)
    (hn : name ≠ "") (ha : app ≠ "") (hs : sec ≠ "") :
    p.getAttribute name app sec = .ok (p.findAttr app sec name) := by
  have hcond : ∀ a : Attribute V,
      (a.checkCond app sec && a.name == name) =
      (a.name == name && a.collectApp == app && a.sectionName == sec) := by
    intro a
    simp [Attribute.checkCond, ha, hs]
    cases a.name == name <;> cases a.collectApp == app <;> cases a.sectionName == sec <;> simp
  simp only [Profile.getAttribute, Profile.getAttributes, Profile.findAttr, listFindAttr]
  rw [if_neg, if_neg, head?_filter_filter, find?_pred_congr hcond]
  · simp [ha, hs]
  · simp [hn, ha, hs]

theorem attr_isValid_fields {a : Attribute V} (h : a.isValid = true) :
    a.name ≠ "" ∧ a.collectApp ≠ "" ∧ a.sectionName ≠ "" := by
  simp only [Attribute.isValid, Bool.and_eq_true, Bool.not_eq_true', beq_eq_false_iff_ne] at h
  exact ⟨h.2, h.1.1, h.1.2⟩

theorem listFindAttr_cons (b : Attribute V) (bs : List (Attribute V)) (app sec name : String) :
    listFindAttr (b :: bs) app sec name =
      if b.name = name ∧ b.collectApp = app ∧ b.sectionName = sec then some b
      else listFindAttr bs app sec name := by
  simp only [listFindAttr]
  by_cases h : b.name = name ∧ b.collectApp = app ∧ b.sectionName = sec
  · rw [if_pos h]
    refine List.find?_cons_of_pos _ ?_
    simp only [Bool.and_eq_true, beq_iff_eq]
    exact ⟨⟨h.1, h.2.1⟩, h.2.2⟩
  · rw [if_neg h]
    refine List.find?_cons_of_neg _ ?_
    simp only [Bool.and_eq_true, beq_iff_eq]
    intro hc
    exact h ⟨hc.1.1, hc.1.2, hc.2⟩

theorem listFindAttr_append (l : List (Attribute V)) (a : Attribute V) (app sec name : String) :
    listFindAttr (l ++ [a]) app sec name =
      match listFindAttr l app sec name with
      | some g => some g
      | none =>
        if a.name = name ∧ a.collectApp = app ∧ a.sectionName = sec then some a else none := by
  induction l with
  | nil =>
    simp only [List.nil_append, listFindAttr_cons]
    rfl
  | cons b bs ih =>
    rw [List.cons_append, listFindAttr_cons, listFindAttr_cons]
    split
    · rfl
    · exact ih

theorem listFindAttr_setAttrValue (l : List (Attribute V)) (a : Attribute V)
    (app sec name : String) :
    listFindAttr (setAttrValue l a) app sec name =
      if a.collectApp = app ∧ a.sectionName = sec ∧ a.name = name then
        (listFindAttr l app sec name).map (fun g => { g with value := a.value })
      else listFindAttr l app sec name := by
  induction l with
  | nil =>
    simp only [setAttrValue, listFindAttr, List.find?_nil]
    split <;> rfl
  | cons b bs ih =>
    simp only [setAttrValue]
    by_cases hba : b.name = a.name ∧ b.collectApp = a.collectApp ∧ b.sectionName = a.sectionName
    · rw [if_pos hba, listFindAttr_cons, listFindAttr_cons]
      by_cases hq : a.collectApp = app ∧ a.sectionName = sec ∧ a.name = name
      · have hbq : b.name = name ∧ b.collectApp = app ∧ b.sectionName = sec :=
          ⟨hba.1.trans hq.2.2, hba.2.1.trans hq.1, hba.2.2.trans hq.2.1⟩
        simp [hq, hbq]
      · have hbq : ¬(b.name = name ∧ b.collectApp = app ∧ b.sectionName = sec) := by
          intro hb
          exact hq ⟨hba.2.1.symm.trans hb.2.1, hba.2.2.symm.trans hb.2.2, hba.1.symm.trans hb.1⟩
        simp [hq, hbq]
    · rw [if_neg hba, listFindAttr_cons, listFindAttr_cons]
      by_cases hbq : b.name = name ∧ b.collectApp = app ∧ b.sectionName = sec
      · have hq : ¬(a.collectApp = app ∧ a.sectionName = sec ∧ a.name = name) := by
          intro hq
          exact hba ⟨hbq.1.trans hq.2.2.symm, hbq.2.1.trans hq.1.symm, hbq.2.2.trans hq.2.1.symm⟩
        simp [hq, hbq]
      · simp only [if_neg hbq, ih]

theorem findAttr_admitOne (p : Profile V) (a : Attribute V) (app sec name : String) :
    (admitOne p a).findAttr app sec name =
      admitScan app sec name (p.findAttr app sec name) a := by
  unfold admitOne admitScan
  cases hf : p.findAttr a.collectApp a.sectionName a.name with
  | some g =>
    simp only [Profile.findAttr] at hf ⊢
    rw [listFindAttr_setAttrValue]
    by_cases hq : a.collectApp = app ∧ a.sectionName = sec ∧ a.name = name
    · rw [if_pos hq, if_pos hq]
      rw [← hq.1, ← hq.2.1, ← hq.2.2, hf]
      rfl
    · rw [if_neg hq, if_neg hq]
  | none =>
    simp only [Profile.findAttr] at hf ⊢
    rw [listFindAttr_append]
    by_cases hq : a.collectApp = app ∧ a.sectionName = sec ∧ a.name = name
    · rw [if_pos hq, ← hq.1, ← hq.2.1, ← hq.2.2, hf]
      simp
    · rw [if_neg hq]
      have hq2 : ¬(a.name = name ∧ a.collectApp = app ∧ a.sectionName = sec) := by
        intro h
        exact hq ⟨h.2.1, h.2.2, h.1⟩
      cases hl : listFindAttr p.attributes app sec name <;> simp [hq2]

theorem findAttr_foldl_admitOne (xs : List (Attribute V)) (p : Profile V)
    (app sec name : String) :
    (xs.foldl admitOne p).findAttr app sec name =
      xs.foldl (admitScan app sec name) (p.findAttr app sec name) := by
  induction xs generalizing p with
  | nil => rfl
  | cons a xs ih =>
    simp only [List.foldl_cons]
    rw [ih, findAttr_admitOne]

theorem admitOne_sessions (p : Profile V) (a : Attribute V) :
    (admitOne p a).sessions = p.sessions := by
  unfold admitOne
  cases p.findAttr a.collectApp a.sectionName a.name <;> rfl

theorem foldl_admitOne_sessions (xs : List (Attribute V)) (p : Profile V) :
    (xs.foldl admitOne p).sessions = p.sessions := by
  induction xs generalizing p with
  | nil => rfl
  | cons a xs ih => rw [List.foldl_cons, ih, admitOne_sessions]

theorem setAttributesLoop_cons_valid (p : Profile V) (a : Attribute V)
    (rest : List (Attribute V)) (hv : a.isValid = true) :
    p.setAttributesLoop (a :: rest) = (admitOne p a).setAttributesLoop rest := by
  obtain ⟨hn, ha, hs⟩ := attr_isValid_fields hv
  simp only [Profile.setAttributesLoop, hv, if_true]
  rw [getAttribute_ok p _ _ _ hn ha hs]
  cases hf : p.findAttr a.collectApp a.sectionName a.name <;> simp [admitOne, hf]

theorem setAttributesLoop_all_valid (xs : List (Attribute V)) (p : Profile V)
    (hv : ∀ a ∈ xs, a.isValid = true) :
    p.setAttributesLoop xs = (xs.foldl admitOne p, none) := by
  induction xs generalizing p with
  | nil => rfl
  | cons a xs ih =>
    rw [setAttributesLoop_cons_valid p a xs (hv a (by simp)), List.foldl_cons]
    exact ih _ (fun b hb => hv b (by simp [hb]))

theorem setAttributesLoop_append_valid (xs ys : List (Attribute V)) (p : Profile V)
    (hv : ∀ a ∈ xs, a.isValid = true) :
    p.setAttributesLoop (xs ++ ys) = Profile.setAttributesLoop (xs.foldl admitOne p) ys := by
  induction xs generalizing p with
  | nil => rfl
  | cons a xs ih =>
    rw [List.cons_append, setAttributesLoop_cons_valid p a _ (hv a (by simp)), List.foldl_cons]
    exact ih _ (fun b hb => hv b (by simp [hb]))

theorem admitScan_not_mem {app sec name : String} {xs : List (Attribute V)}
    (h : ∀ a ∈ xs, ¬(a.collectApp = app ∧ a.sectionName = sec ∧ a.name = name))
    (o : Option (Attribute V)) : xs.foldl (admitScan app sec name) o = o := by
  induction xs generalizing o with
  | nil => rfl
  | cons a xs ih =>
    rw [List.foldl_cons]
    rw [show admitScan app sec name o a = o from if_neg (h a (by simp))]
    exact ih (fun b hb => h b (by simp [hb])) o

theorem admitScan_mem {app sec name : String} {xs : List (Attribute V)}
    (hnd : (attrKeys xs).Nodup) {a0 : Attribute V} (ha0 : a0 ∈ xs)
    (hk : a0.collectApp = app ∧ a0.sectionName = sec ∧ a0.name = name)
    (o : Option (Attribute V)) :
    ∃ g, xs.foldl (admitScan app sec name) o = some g ∧ g.value = a0.value := by
  induction xs generalizing o with
  | nil => cases ha0
  | cons a xs ih =>
    simp only [attrKeys, List.map_cons, List.nodup_cons] at hnd
    rcases List.mem_cons.1 ha0 with heq | hmem
    · subst heq
      rw [List.foldl_cons, show admitScan app sec name o a0 =
        some (match o with | some g => { g with value := a0.value } | none => a0) from if_pos hk]
      have hrest : ∀ b ∈ xs, ¬(b.collectApp = app ∧ b.sectionName = sec ∧ b.name = name) := by
        intro b hb hkb
        exact hnd.1 (by
          rw [show (a0.collectApp, a0.sectionName, a0.name) =
            (b.collectApp, b.sectionName, b.name) by
              rw [hk.1, hk.2.1, hk.2.2, hkb.1, hkb.2.1, hkb.2.2]]
          exact List.mem_map.2 ⟨b, hb, rfl⟩)
      rw [admitScan_not_mem hrest]
      cases o <;> exact ⟨_, rfl, rfl⟩
    · have hka : ¬(a.collectApp = app ∧ a.sectionName = sec ∧ a.name = name) := by
        intro hkb
        exact hnd.1 (by
          rw [show (a.collectApp, a.sectionName, a.name) =
            (a0.collectApp, a0.sectionName, a0.name) by
              rw [hk.1, hk.2.1, hk.2.2, hkb.1, hkb.2.1, hkb.2.2]]
          exact List.mem_map.2 ⟨a0, hmem, rfl⟩)
      rw [List.foldl_cons, show admitScan app sec name o a = o from if_neg hka]
      exact ih hnd.2 hmem o

theorem listFindAttr_eq_none_iff (l : List (Attribute V)) (app sec name : String) :
    listFindAttr l app sec name = none ↔
      ∀ a ∈ l, ¬(a.collectApp = app ∧ a.sectionName = sec ∧ a.name = name) := by
  induction l with
  | nil => simp [listFindAttr]
  | cons b bs ih =>
    rw [listFindAttr_cons]
    by_cases hb : b.name = name ∧ b.collectApp = app ∧ b.sectionName = sec
    · simp only [if_pos hb]
      constructor
      · intro h; cases h
      · intro h; exact absurd ⟨hb.2.1, hb.2.2, hb.1⟩ (h b (by simp))
    · simp only [if_neg hb, ih]
      constructor
      · intro h a ha
        rcases List.mem_cons.1 ha with rfl | ha'
        · intro hk; exact hb ⟨hk.2.2, hk.1, hk.2.1⟩
        · exact h a ha'
      · intro h a ha
        exact h a (by simp [ha])

theorem lookupData_dataSet (d : List (String × V)) (k v k') :
    lookupData (dataSet d k v) k' = if k = k' then some v else lookupData d k' := by
  induction d with
  | nil => simp [dataSet, lookupData]
  | cons kv d ih =>
    by_cases h1 : kv.1 = k
    · simp only [dataSet, if_pos h1, lookupData, h1]
      split <;> simp [*]
    · simp only [dataSet, if_neg h1, lookupData, ih]
      by_cases h2 : kv.1 = k'
      · have : ¬ k = k' := fun hk => h1 (hk ▸ h2)
        simp [h2, this]
      · simp [h2]

theorem lookupData_mergeData (d : List (String × V)) (old : List (String × V)) (k : String) :
    lookupData (mergeData old d) k =
      d.foldl (fun o kv => if kv.1 = k then some kv.2 else o) (lookupData old k) := by
  induction d generalizing old with
  | nil => rfl
  | cons kv d ih =>
    simp only [mergeData, List.foldl_cons] at *
    rw [ih, lookupData_dataSet]

theorem foldl_scan_not_mem {k : String} {d : List (String × V)} (h : k ∉ dataKeys d)
    (o : Option V) : d.foldl (fun o kv => if kv.1 = k then some kv.2 else o) o = o := by
  induction d generalizing o with
  | nil => rfl
  | cons kv d ih =>
    simp [dataKeys] at h
    simp only [List.foldl_cons, if_neg (fun hk : kv.1 = k => h.1 hk.symm)]
    exact ih (by simp [dataKeys, h.2]) o

theorem foldl_scan_mem {k : String} {v : V} {d : List (String × V)}
    (hnd : (dataKeys d).Nodup) (hmem : (k, v) ∈ d) (o : Option V) :
    d.foldl (fun o kv => if kv.1 = k then some kv.2 else o) o = some v := by
  induction d generalizing o with
  | nil => cases hmem
  | cons kv d ih =>
    simp only [dataKeys, List.map_cons, List.nodup_cons] at hnd
    rcases List.mem_cons.1 hmem with heq | hmem'
    · subst heq
      simp only [List.foldl_cons, if_pos rfl]
      exact foldl_scan_not_mem hnd.1 _
    · have hk : kv.1 ≠ k := by
        intro hk
        exact hnd.1 (hk ▸ (List.mem_map.2 ⟨(k, v), hmem', hk ▸ rfl⟩))
      simp only [List.foldl_cons, if_neg hk]
      exact ih hnd.2 hmem' o

theorem getEvent_eq_listFind (s : Session V) (eid : String) :
    s.getEvent eid = listFindEvent s.events eid :=
  head?_filter _ _

theorem mergeSessionEvents_eq (les : List (Event V)) (s : Session V)
    (hv : ∀ e ∈ les, e.isValid = true) :
    Session.mergeSessionEvents s les = .ok { s with events := les.foldl stepEvents s.events } := by
  induction les generalizing s with
  | nil => rfl
  | cons le rest ih =>
    have hg' : s.getEvent le.id = listFindEvent s.events le.id := getEvent_eq_listFind s le.id
    cases hg : listFindEvent s.events le.id with
    | some e =>
      rw [List.foldl_cons, show stepEvents s.events le = updEventData s.events le by
        simp [stepEvents, hg]]
      simp only [Session.mergeSessionEvents, hg', hg]
      exact ih _ (fun x hx => hv x (by simp [hx]))
    | none =>
      rw [List.foldl_cons, show stepEvents s.events le = s.events ++ [le] by
        simp [stepEvents, hg]]
      simp only [Session.mergeSessionEvents, hg', hg, Session.addEvent, hv le (by simp),
        if_true]
      exact ih _ (fun x hx => hv x (by simp [hx]))

theorem listFindEvent_cons (e : Event V) (es : List (Event V)) (i : String) :
    listFindEvent (e :: es) i = if e.id = i then some e else listFindEvent es i := by
  simp only [listFindEvent]
  by_cases h : e.id = i
  · rw [if_pos h]
    exact List.find?_cons_of_pos _ (by simp [h])
  · rw [if_neg h]
    exact List.find?_cons_of_neg _ (by simp [h])

theorem listFindEvent_updEventData (es : List (Event V)) (le : Event V) (i : String) :
    listFindEvent (updEventData es le) i =
      if le.id = i then (listFindEvent es i).map (fun ne => { ne with data := le.data })
      else listFindEvent es i := by
  induction es with
  | nil =>
    simp only [updEventData, listFindEvent, List.find?_nil]
    split <;> rfl
  | cons e es ih =>
    simp only [updEventData]
    by_cases hel : e.id = le.id
    · rw [if_pos hel, listFindEvent_cons, listFindEvent_cons]
      by_cases hq : le.id = i
      · simp [hel.trans hq, hq]
      · have : ¬ e.id = i := fun h => hq (hel.symm.trans h)
        simp [this, hq]
    · rw [if_neg hel, listFindEvent_cons, listFindEvent_cons]
      by_cases heq : e.id = i
      · have : ¬ le.id = i := fun h => hel (heq.trans h.symm)
        simp [heq, this]
      · rw [if_neg heq, if_neg heq, ih]

theorem listFindEvent_append (es : List (Event V)) (e : Event V) (i : String) :
    listFindEvent (es ++ [e]) i =
      match listFindEvent es i with
      | some g => some g
      | none => if e.id = i then some e else none := by
  induction es with
  | nil =>
    simp only [List.nil_append, listFindEvent_cons]
    rfl
  | cons b bs ih =>
    rw [List.cons_append, listFindEvent_cons, listFindEvent_cons]
    split
    · rfl
    · exact ih

theorem listFindEvent_stepEvents (es : List (Event V)) (le : Event V) (i : String) :
    listFindEvent (stepEvents es le) i = eventScan i (listFindEvent es i) le := by
  unfold stepEvents eventScan
  cases hf : listFindEvent es le.id with
  | some ne =>
    rw [listFindEvent_updEventData]
    by_cases hq : le.id = i
    · rw [if_pos hq, if_pos hq, ← hq, hf]
      rfl
    · rw [if_neg hq, if_neg hq]
  | none =>
    rw [listFindEvent_append]
    by_cases hq : le.id = i
    · rw [← hq, hf]
    · cases hl : listFindEvent es i <;> simp [hq, hl]

theorem listFindEvent_foldl_stepEvents (les : List (Event V)) (es : List (Event V))
    (i : String) :
    listFindEvent (les.foldl stepEvents es) i = les.foldl (eventScan i) (listFindEvent es i) := by
  induction les generalizing es with
  | nil => rfl
  | cons le les ih =>
    simp only [List.foldl_cons]
    rw [ih, listFindEvent_stepEvents]

theorem eventScan_not_mem {i : String} {les : List (Event V)}
    (h : ∀ le ∈ les, le.id ≠ i) (o : Option (Event V)) :
    les.foldl (eventScan i) o = o := by
  induction les generalizing o with
  | nil => rfl
  | cons le les ih =>
    rw [List.foldl_cons, show eventScan i o le = o from if_neg (h le (by simp))]
    exact ih (fun x hx => h x (by simp [hx])) o

theorem eventScan_mem {i : String} {les : List (Event V)}
    (hnd : (les.map Event.id).Nodup) {le : Event V} (hle : le ∈ les) (hi : le.id = i)
    (o : Option (Event V)) :
    les.foldl (eventScan i) o =
      some (match o with | some ne => { ne with data := le.data } | none => le) := by
  induction les generalizing o with
  | nil => cases hle
  | cons e les ih =>
    simp only [List.map_cons, List.nodup_cons] at hnd
    rcases List.mem_cons.1 hle with heq | hmem
    · subst heq
      rw [List.foldl_cons, show eventScan i o le =
        some (match o with | some ne => { ne with data := le.data } | none => le) from if_pos hi]
      refine eventScan_not_mem (fun x hx hxi => ?_) _
      refine hnd.1 ?_
      rw [hi]
      exact hxi ▸ List.mem_map.2 ⟨x, hx, rfl⟩
    · have hei : e.id ≠ i := by
        intro hei
        refine hnd.1 ?_
        rw [hei, ← hi]
        exact List.mem_map.2 ⟨le, hmem, rfl⟩
      rw [List.foldl_cons, show eventScan i o e = o from if_neg hei]
      exact ih hnd.2 hmem o

theorem mergeLocalSessions_ok (locals : List (Session V)) (p : Profile V)
    (h : ∀ ls ∈ locals, ls.isValid = true ∧ ∀ e ∈ ls.events, e.isValid = true) :
    ∃ p2, Profile.mergeLocalSessions p locals = .ok p2 ∧
      p2.attributes = p.attributes ∧ p2.id = p.id := by
  induction locals generalizing p with
  | nil => exact ⟨p, rfl, rfl, rfl⟩
  | cons ls rest ih =>
    simp only [Profile.mergeLocalSessions]
    cases hg : p.getSession ls.id with
    | some ns =>
      dsimp only
      rw [mergeSessionEvents_eq _ _ (h ls (by simp)).2]
      obtain ⟨p2, h1, h2, h3⟩ := ih _ (fun x hx => h x (by simp [hx]))
      exact ⟨p2, h1, h2, h3⟩
    | none =>
      dsimp only
      simp only [Profile.setSession, (h ls (by simp)).1, if_true, hg]
      obtain ⟨p2, h1, h2, h3⟩ := ih _ (fun x hx => h x (by simp [hx]))
      exact ⟨p2, h1, h2, h3⟩

theorem merge_eq_ok (p1 p2 : Profile V) (hid : p1.id = p2.id)
    (hv1 : ∀ a ∈ p1.attributes, a.isValid = true)
    (hv2 : ∀ a ∈ p2.attributes, a.isValid = true) :
    p1.merge p2 = Profile.mergeLocalSessions
      { p1.attributes.foldl admitOne (p2.attributes.foldl admitOne p1) with
        sessions := p2.sessions } p1.sessions := by
  have hgid : p1.getId = p2.getId := by simp [Profile.getId, hid]
  simp only [Profile.merge, hgid, ne_eq, not_true_eq_false, if_false]
  rw [setAttributesLoop_all_valid p2.attributes p1 hv2]
  dsimp only
  rw [setAttributesLoop_all_valid p1.attributes _ hv1]

/-! Serialization and reconstruction lemmas. -/

theorem event_serialize_eq (e : Event V) : e.serialize = e := rfl

theorem map_event_serialize (l : List (Event V)) : l.map Event.serialize = l := by
  induction l with
  | nil => rfl
  | cons e es ih => simp [ih, event_serialize_eq]

theorem serialize_session_eq (s : Session V) :
    (let so := s.serialize
     { so with events := so.events.map Event.serialize }) = s := by
  simp [Session.serialize, map_event_serialize]

theorem profile_serialize_eq (p : Profile V) :
    p.serialize = ⟨p.id, serializeAttrs p.attributes, p.sessions⟩ := by
  simp only [Profile.serialize]
  rw [show p.sessions.map (fun s =>
      let so := s.serialize
      { so with events := so.events.map Event.serialize }) = p.sessions.map (fun s => s) from
    List.map_congr_left (fun s _ => serialize_session_eq s)]
  simp

theorem event_reconstruct_eq (now : Nat) (e : Event V)
    (h1 : e.id ≠ "") (h2 : e.createdAt ≠ 0) (h3 : e.modifiedAt ≠ 0) :
    Event.reconstruct now e = e := by
  simp [Event.reconstruct, h1, h2, h3]

theorem dataSet_append {k : String} {d : List (String × V)} (h : k ∉ dataKeys d) (v : V) :
    dataSet d k v = d ++ [(k, v)] := by
  induction d with
  | nil => rfl
  | cons kv d ih =>
    have hne : kv.1 ≠ k := fun hk => h (List.mem_cons.2 (Or.inl hk.symm))
    have htail : k ∉ dataKeys d := fun hm => h (List.mem_cons.2 (Or.inr hm))
    rw [show dataSet (kv :: d) k v = kv :: dataSet d k v from if_neg hne, ih htail,
      List.cons_append]

theorem dataKeys_append (d1 d2 : List (String × V)) :
    dataKeys (d1 ++ d2) = dataKeys d1 ++ dataKeys d2 := by
  simp [dataKeys]

theorem mergeData_disjoint (d : List (String × V)) (acc : List (String × V))
    (hdis : ∀ k ∈ dataKeys d, k ∉ dataKeys acc) (hnd : (dataKeys d).Nodup) :
    mergeData acc d = acc ++ d := by
  induction d generalizing acc with
  | nil => simp [mergeData]
  | cons kv d ih =>
    simp only [dataKeys, List.map_cons, List.nodup_cons] at hnd
    have hk : kv.1 ∉ dataKeys acc := hdis kv.1 (List.mem_cons.2 (Or.inl rfl))
    show mergeData (dataSet acc kv.1 kv.2) d = acc ++ kv :: d
    rw [dataSet_append hk kv.2, ih (acc ++ [(kv.1, kv.2)]) ?_ hnd.2]
    · simp
    · intro k hkd
      rw [dataKeys_append]
      simp only [List.mem_append, not_or]
      refine ⟨fun hm => hdis k (List.mem_cons.2 (Or.inr hkd)) hm, ?_⟩
      simp only [dataKeys, List.map_cons, List.map_nil, List.mem_singleton]
      intro hkk
      exact hnd.1 (hkk ▸ hkd)

theorem mergeData_nil (d : List (String × V)) (hnd : (dataKeys d).Nodup) :
    mergeData [] d = d := by
  rw [mergeData_disjoint d [] (by simp [dataKeys]) hnd, List.nil_append]

theorem session_reconstruct_eq (now : Nat) (s : Session V)
    (h1 : s.id ≠ "") (h2 : s.collectApp ≠ "") (h3 : s.createdAt ≠ 0) (h4 : s.modifiedAt ≠ 0)
    (h5 : (dataKeys s.data).Nodup)
    (h6 : ∀ e ∈ s.events, e.id ≠ "" ∧ e.createdAt ≠ 0 ∧ e.modifiedAt ≠ 0) :
    Session.reconstruct now s = s := by
  have hev : s.events.map (Event.reconstruct now) = s.events := by
    rw [show s.events.map (Event.reconstruct now) = s.events.map (fun e => e) from
      List.map_congr_left (fun e he =>
        event_reconstruct_eq now e (h6 e he).1 (h6 e he).2.1 (h6 e he).2.2)]
    simp
  simp [Session.reconstruct, h1, h2, h3, h4, mergeData_nil s.data h5, hev]

/-! Grouping lemmas for the attribute part of serialization. -/

theorem dataSet_ne_nil (d : List (String × V)) (k : String) (v : V) :
    dataSet d k v ≠ [] := by
  cases d with
  | nil => simp [dataSet]
  | cons kv d =>
    simp only [dataSet]
    split <;> simp

theorem dataKeys_dataSet (d : List (String × V)) (k : String) (v : V) :
    dataKeys (dataSet d k v) =
      if k ∈ dataKeys d then dataKeys d else dataKeys d ++ [k] := by
  induction d with
  | nil => simp [dataSet, dataKeys]
  | cons kv d ih =>
    simp only [dataSet]
    by_cases hk : kv.1 = k
    · rw [if_pos hk]
      have : k ∈ dataKeys (kv :: d) := List.mem_cons.2 (Or.inl hk.symm)
      simp [this, dataKeys, hk]
    · rw [if_neg hk]
      have hcons : dataKeys (kv :: d) = kv.1 :: dataKeys d := rfl
      have hcons2 : dataKeys (kv :: dataSet d k v) = kv.1 :: dataKeys (dataSet d k v) := rfl
      by_cases hm : k ∈ dataKeys d
      · rw [hcons2, ih, if_pos hm, hcons,
          if_pos (List.mem_cons.2 (Or.inr hm))]
      · have : ¬ k ∈ dataKeys (kv :: d) := by
          rw [hcons]
          simp only [List.mem_cons, not_or]
          exact ⟨fun h => hk h.symm, hm⟩
        rw [hcons2, ih, if_neg hm, if_neg this, hcons, List.cons_append]

theorem mem_dataSet_keys {d : List (String × V)} {k : String} {v : V} {x : String × V}
    (hx : x ∈ dataSet d k v) : x.1 ∈ dataKeys d ∨ x.1 = k := by
  induction d with
  | nil =>
    simp only [dataSet, List.mem_singleton] at hx
    exact Or.inr (by rw [hx])
  | cons kv d ih =>
    simp only [dataSet] at hx
    by_cases hk : kv.1 = k
    · rw [if_pos hk] at hx
      rcases List.mem_cons.1 hx with rfl | hm
      · exact Or.inr hk
      · exact Or.inl (List.mem_cons.2 (Or.inr (List.mem_map.2 ⟨x, hm, rfl⟩)))
    · rw [if_neg hk] at hx
      rcases List.mem_cons.1 hx with rfl | hm
      · exact Or.inl (List.mem_cons.2 (Or.inl rfl))
      · rcases ih hm with h | h
        · exact Or.inl (List.mem_cons.2 (Or.inr h))
        · exact Or.inr h

theorem mem_dataKeys {d : List (String × V)} {k : String} (h : k ∈ dataKeys d) :
    ∃ kv ∈ d, kv.1 = k := by
  rcases List.mem_map.1 h with ⟨kv, hkv, hk⟩
  exact ⟨kv, hkv, hk⟩

theorem wfGroup_dataSet {g : AttrGroup V} (hg : wfGroup g) {k : String} (hk : k ≠ "")
    (v : V) : wfGroup { g with data := dataSet g.data k v } := by
  obtain ⟨h1, h2, _, h4, h5⟩ := hg
  refine ⟨h1, h2, dataSet_ne_nil _ _ _, ?_, ?_⟩
  · show (dataKeys (dataSet g.data k v)).Nodup
    rw [dataKeys_dataSet]
    by_cases hm : k ∈ dataKeys g.data
    · rwa [if_pos hm]
    · rw [if_neg hm]
      simp [List.nodup_append, h4, hm]
  · intro kv hkv
    rcases mem_dataSet_keys hkv with hm | hm
    · rcases mem_dataKeys hm with ⟨kv2, hkv2, hfst⟩
      rw [← hfst]
      exact h5 kv2 hkv2
    · rw [hm]
      exact hk

theorem groupKeys_groupStep (gs : List (AttrGroup V)) (a : Attribute V) :
    groupKeys (groupStep gs a) =
      if (a.collectApp, a.sectionName) ∈ groupKeys gs then groupKeys gs
      else groupKeys gs ++ [(a.collectApp, a.sectionName)] := by
  induction gs with
  | nil => simp [groupStep, groupKeys]
  | cons g gs ih =>
    have hcons : groupKeys (g :: gs) = (g.collectApp, g.sectionName) :: groupKeys gs := rfl
    simp only [groupStep]
    by_cases hm : g.collectApp = a.collectApp ∧ g.sectionName = a.sectionName
    · rw [if_pos hm]
      have hmem : (a.collectApp, a.sectionName) ∈ groupKeys (g :: gs) := by
        rw [hcons]
        exact List.mem_cons.2 (Or.inl (by rw [hm.1, hm.2]))
      rw [if_pos hmem, hcons]
      rfl
    · rw [if_neg hm]
      have hhead : ¬ (a.collectApp, a.sectionName) = (g.collectApp, g.sectionName) := by
        simp only [Prod.mk.injEq, not_and]
        intro h1 h2
        exact hm ⟨h1.symm, h2.symm⟩
      have hgk : groupKeys (g :: groupStep gs a) =
          (g.collectApp, g.sectionName) :: groupKeys (groupStep gs a) := rfl
      by_cases hmem : (a.collectApp, a.sectionName) ∈ groupKeys gs
      · rw [hgk, ih, if_pos hmem, hcons, if_pos (List.mem_cons.2 (Or.inr hmem))]
      · have hnm : ¬ (a.collectApp, a.sectionName) ∈ groupKeys (g :: gs) := by
          rw [hcons]
          simp only [List.mem_cons, not_or]
          exact ⟨hhead, hmem⟩
        rw [hgk, ih, if_neg hmem, if_neg hnm, hcons, List.cons_append]

theorem groupStep_wf {gs : List (AttrGroup V)} {a : Attribute V}
    (hwf : ∀ g ∈ gs, wfGroup g) (hval : a.isValid = true) :
    ∀ g ∈ groupStep gs a, wfGroup g := by
  obtain ⟨hn, ha, hs⟩ := attr_isValid_fields hval
  induction gs with
  | nil =>
    intro g hg
    simp only [groupStep, List.mem_singleton] at hg
    subst hg
    exact ⟨ha, hs, by simp [dataSet], by simp [dataSet, dataKeys], by simp [dataSet, hn]⟩
  | cons g0 gs ih =>
    intro g hg
    simp only [groupStep] at hg
    by_cases hm : g0.collectApp = a.collectApp ∧ g0.sectionName = a.sectionName
    · rw [if_pos hm] at hg
      rcases List.mem_cons.1 hg with rfl | hmem
      · exact wfGroup_dataSet (hwf g0 (by simp)) hn a.value
      · exact hwf g (by simp [hmem])
    · rw [if_neg hm] at hg
      rcases List.mem_cons.1 hg with rfl | hmem
      · exact hwf g (by simp)
      · exact ih (fun g2 hg2 => hwf g2 (by simp [hg2])) g hmem

theorem groupStep_nodup {gs : List (AttrGroup V)} {a : Attribute V}
    (hnd : (groupKeys gs).Nodup) : (groupKeys (groupStep gs a)).Nodup := by
  rw [groupKeys_groupStep]
  by_cases hm : (a.collectApp, a.sectionName) ∈ groupKeys gs
  · rwa [if_pos hm]
  · rw [if_neg hm]
    simp [List.nodup_append, hnd, hm]

theorem serAttrStep_foldl_wf (attrs : List (Attribute V)) (gs : List (AttrGroup V))
    (hnd : (groupKeys gs).Nodup) (hwf : ∀ g ∈ gs, wfGroup g) :
    (groupKeys (attrs.foldl serAttrStep gs)).Nodup ∧
      ∀ g ∈ attrs.foldl serAttrStep gs, wfGroup g := by
  induction attrs generalizing gs with
  | nil => exact ⟨hnd, hwf⟩
  | cons a attrs ih =>
    rw [List.foldl_cons]
    cases hval : a.isValid with
    | true =>
      rw [show serAttrStep gs a = groupStep gs a by simp [serAttrStep, hval]]
      exact ih _ (groupStep_nodup hnd) (groupStep_wf hwf hval)
    | false =>
      rw [show serAttrStep gs a = gs by simp [serAttrStep, hval]]
      exact ih _ hnd hwf

theorem serializeAttrs_wf (attrs : List (Attribute V)) :
    (groupKeys (serializeAttrs attrs)).Nodup ∧ ∀ g ∈ serializeAttrs attrs, wfGroup g :=
  serAttrStep_foldl_wf attrs [] (by simp [groupKeys]) (by simp)

theorem attr_isValid_of_fields {a : Attribute V} (h1 : a.collectApp ≠ "")
    (h2 : a.sectionName ≠ "") (h3 : a.name ≠ "") : a.isValid = true := by
  simp [Attribute.isValid, h1, h2, h3]

theorem groupStep_no_match {gs : List (AttrGroup V)} {a : Attribute V}
    (h : ∀ g ∈ gs, ¬(g.collectApp = a.collectApp ∧ g.sectionName = a.sectionName)) :
    groupStep gs a = gs ++
      [{ collectApp := a.collectApp, sectionName := a.sectionName,
         data := dataSet [] a.name a.value }] := by
  induction gs with
  | nil => rfl
  | cons g gs ih =>
    rw [show groupStep (g :: gs) a = g :: groupStep gs a from if_neg (h g (by simp)),
      ih (fun g2 hg2 => h g2 (by simp [hg2])), List.cons_append]

theorem groupStep_last_match {acc : List (AttrGroup V)} {g0 : AttrGroup V} {a : Attribute V}
    (hacc : ∀ g ∈ acc, ¬(g.collectApp = a.collectApp ∧ g.sectionName = a.sectionName))
    (hm : g0.collectApp = a.collectApp ∧ g0.sectionName = a.sectionName) :
    groupStep (acc ++ [g0]) a =
      acc ++ [{ g0 with data := dataSet g0.data a.name a.value }] := by
  induction acc with
  | nil =>
    rw [List.nil_append, show groupStep [g0] a =
      { g0 with data := dataSet g0.data a.name a.value } :: [] from if_pos hm, List.nil_append]
  | cons g acc ih =>
    rw [List.cons_append, show groupStep (g :: (acc ++ [g0])) a =
        g :: groupStep (acc ++ [g0]) a from if_neg (hacc g (by simp)),
      ih (fun g2 hg2 => hacc g2 (by simp [hg2])), List.cons_append]

theorem regroup_single (d : List (String × V)) (acc : List (AttrGroup V))
    (app sec : String) (d0 : List (String × V))
    (happ : app ≠ "") (hsec : sec ≠ "")
    (hacc : ∀ g ∈ acc, ¬(g.collectApp = app ∧ g.sectionName = sec))
    (hdisj : ∀ k ∈ dataKeys d, k ∉ dataKeys d0)
    (hnd : (dataKeys d).Nodup)
    (hne : ∀ kv ∈ d, kv.1 ≠ "") :
    (d.map (fun kv =>
      ({ collectApp := app, sectionName := sec,
         name := kv.1, value := kv.2 } : Attribute V))).foldl serAttrStep
        (acc ++ [⟨app, sec, d0⟩]) = acc ++ [⟨app, sec, d0 ++ d⟩] := by
  induction d generalizing d0 with
  | nil => simp
  | cons kv d ih =>
    rw [List.map_cons, List.foldl_cons]
    have hval : ({ collectApp := app, sectionName := sec,
                   name := kv.1, value := kv.2 } : Attribute V).isValid = true :=
      attr_isValid_of_fields happ hsec (hne kv (by simp))
    rw [show serAttrStep (acc ++ [⟨app, sec, d0⟩])
        { collectApp := app, sectionName := sec, name := kv.1, value := kv.2 } =
        groupStep (acc ++ [⟨app, sec, d0⟩])
          { collectApp := app, sectionName := sec, name := kv.1, value := kv.2 } by
      simp [serAttrStep, hval]]
    rw [groupStep_last_match hacc ⟨rfl, rfl⟩]
    have hk0 : kv.1 ∉ dataKeys d0 := hdisj kv.1 (List.mem_cons.2 (Or.inl rfl))
    rw [show dataSet d0 kv.1 kv.2 = d0 ++ [(kv.1, kv.2)] from dataSet_append hk0 kv.2]
    simp only [dataKeys, List.map_cons, List.nodup_cons] at hnd
    rw [ih (d0 ++ [(kv.1, kv.2)]) ?_ hnd.2 (fun kv2 hkv2 => hne kv2 (by simp [hkv2]))]
    · rw [List.append_assoc]
      rfl
    · intro k hkd
      rw [dataKeys_append]
      simp only [List.mem_append, not_or]
      refine ⟨fun hm => hdisj k (List.mem_cons.2 (Or.inr hkd)) hm, ?_⟩
      simp only [dataKeys, List.map_cons, List.map_nil, List.mem_singleton]
      intro hkk
      exact hnd.1 (hkk ▸ hkd)

theorem regroup (gs : List (AttrGroup V)) (acc : List (AttrGroup V))
    (hnd : (groupKeys (acc ++ gs)).Nodup) (hwf : ∀ g ∈ gs, wfGroup g) :
    (flattenGroups gs).foldl serAttrStep acc = acc ++ gs := by
  induction gs generalizing acc with
  | nil => simp [flattenGroups]
  | cons g gs ih =>
    obtain ⟨happ, hsec, hdne, hdnd, hdkeys⟩ := hwf g (by simp)
    have hkeysplit : groupKeys (acc ++ g :: gs) =
        groupKeys acc ++ (g.collectApp, g.sectionName) :: groupKeys gs := by
      simp [groupKeys]
    have hknotacc : (g.collectApp, g.sectionName) ∉ groupKeys acc := by
      rw [hkeysplit] at hnd
      rcases List.nodup_append.1 hnd with ⟨_, _, hdisj⟩
      intro hmem
      exact hdisj hmem (List.mem_cons.2 (Or.inl rfl))
    have haccnm : ∀ g2 ∈ acc, ¬(g2.collectApp = g.collectApp ∧ g2.sectionName = g.sectionName) := by
      intro g2 hg2 hm
      refine hknotacc ?_
      rw [show (g.collectApp, g.sectionName) = (g2.collectApp, g2.sectionName) by
        rw [hm.1, hm.2]]
      exact List.mem_map.2 ⟨g2, hg2, rfl⟩
    cases hd : g.data with
    | nil => exact absurd hd hdne
    | cons kv0 drest =>
      simp only [flattenGroups]
      rw [hd, List.map_cons, List.foldl_append, List.foldl_cons]
      have hkv0 : kv0.1 ≠ "" := hdkeys kv0 (by rw [hd]; exact List.mem_cons.2 (Or.inl rfl))
      have hval : ({ collectApp := g.collectApp, sectionName := g.sectionName,
                     name := kv0.1, value := kv0.2 } : Attribute V).isValid = true :=
        attr_isValid_of_fields happ hsec hkv0
      rw [show serAttrStep acc { collectApp := g.collectApp, sectionName := g.sectionName,
                                 name := kv0.1, value := kv0.2 } =
          groupStep acc { collectApp := g.collectApp, sectionName := g.sectionName,
                          name := kv0.1, value := kv0.2 } by simp [serAttrStep, hval]]
      rw [groupStep_no_match haccnm]
      rw [hd] at hdnd hdkeys
      simp only [dataKeys, List.map_cons, List.nodup_cons] at hdnd
      rw [show dataSet ([] : List (String × V)) kv0.1 kv0.2 = [(kv0.1, kv0.2)] from rfl]
      rw [regroup_single drest acc g.collectApp g.sectionName [(kv0.1, kv0.2)] happ hsec haccnm
        ?_ hdnd.2 (fun kv2 hkv2 => hdkeys kv2 (List.mem_cons.2 (Or.inr hkv2)))]
      · have hgrp : (⟨g.collectApp, g.sectionName, (kv0.1, kv0.2) :: drest⟩ : AttrGroup V) = g := by
          rw [show ((kv0.1, kv0.2) : String × V) = kv0 from rfl, ← hd]
        rw [show ([(kv0.1, kv0.2)] ++ drest : List (String × V)) = (kv0.1, kv0.2) :: drest from
          rfl, hgrp]
        rw [ih (acc ++ [g]) (by rw [List.append_assoc]; exact hnd)
          (fun g2 hg2 => hwf g2 (by simp [hg2]))]
        rw [List.append_assoc]
        rfl
      · intro k hkd
        simp only [dataKeys, List.map_cons, List.map_nil, List.mem_singleton]
        intro hkk
        exact hdnd.1 (hkk ▸ hkd)

theorem serializeAttrs_roundtrip (attrs : List (Attribute V)) :
    serializeAttrs (flattenGroups (serializeAttrs attrs)) = serializeAttrs attrs := by
  obtain ⟨hnd, hwf⟩ := serializeAttrs_wf attrs
  show (flattenGroups (serializeAttrs attrs)).foldl serAttrStep [] = _
  rw [regroup (serializeAttrs attrs) [] hnd hwf, List.nil_append]

/-- Claim C5: serialization round-trip idempotence: reconstructing a
Profile from its serialized form and serializing again yields the same
structure, for profiles whose identifiers and timestamps are present and
whose session data objects have distinct keys (serialize groups the flat
attribute set into nested collectApp/section records, skipping invalid
attributes, and the regrouping of the reconstruction reproduces them). -/
theorem serialize_roundtrip (now : Nat) (p : Profile V)
    (hp : p.id ≠ "")
    (hs : ∀ s ∈ p.sessions, s.id ≠ "" ∧ s.collectApp ≠ "" ∧ s.createdAt ≠ 0 ∧
      s.modifiedAt ≠ 0 ∧ (dataKeys s.data).Nodup ∧
      ∀ e ∈ s.events, e.id ≠ "" ∧ e.createdAt ≠ 0 ∧ e.modifiedAt ≠ 0) :
    (Profile.ofSerialized now p.serialize).serialize = p.serialize := by
  rw [profile_serialize_eq p]
  have hmap : p.sessions.map (Session.reconstruct now) = p.sessions := by
    rw [show p.sessions.map (Session.reconstruct now) = p.sessions.map (fun s => s) from
      List.map_congr_left (fun s hsm => session_reconstruct_eq now s (hs s hsm).1 (hs s hsm).2.1
        (hs s hsm).2.2.1 (hs s hsm).2.2.2.1 (hs s hsm).2.2.2.2.1 (hs s hsm).2.2.2.2.2)]
    simp
  simp only [Profile.ofSerialized]
  rw [if_neg hp, hmap, profile_serialize_eq]
  dsimp only
  rw [serializeAttrs_roundtrip]

/-- Witness for C5 at a profile holding two valid attributes in different
scopes, one invalid attribute (skipped by serialization), and a session
with data and an event. -/
theorem serialize_roundtrip_witness :
    (Profile.ofSerialized 42 (Profile.serialize (V := Nat)
      ⟨"p", [⟨"app", "sec", "x", 1⟩, ⟨"app", "sec", "", 9⟩, ⟨"app", "sec2", "y", 2⟩],
        [⟨"s1", "web", "sec", [("a", 1)], [⟨"e1", "d1", [("k", 2)], 5, 6⟩], 5, 6⟩]⟩)).serialize =
    Profile.serialize (V := Nat)
      ⟨"p", [⟨"app", "sec", "x", 1⟩, ⟨"app", "sec", "", 9⟩, ⟨"app", "sec2", "y", 2⟩],
        [⟨"s1", "web", "sec", [("a", 1)], [⟨"e1", "d1", [("k", 2)], 5, 6⟩], 5, 6⟩]⟩ :=
  serialize_roundtrip 42
    ⟨"p", [⟨"app", "sec", "x", 1⟩, ⟨"app", "sec", "", 9⟩, ⟨"app", "sec2", "y", 2⟩],
      [⟨"s1", "web", "sec", [("a", 1)], [⟨"e1", "d1", [("k", 2)], 5, 6⟩], 5, 6⟩]⟩
    (by decide) (by decide)

/-- Claim C6: Session.setData is a cumulative shallow merge, not a
replacement: after s.setData d, every key of d maps to d's value and every
other key keeps its previous value, so repeated partial updates
accumulate. -/
theorem session_setData_merges (s : Session V) (d : List (String × V))
    (hd : (dataKeys d).Nodup) (k : String) :
    (∀ v, (k, v) ∈ d → lookupData (s.setData d).data k = some v) ∧
    (k ∉ dataKeys d → lookupData (s.setData d).data k = lookupData s.data k) := by
  constructor
  · intro v hv
    simp only [Session.setData]
    rw [lookupData_mergeData]
    exact foldl_scan_mem hd hv _
  · intro hk
    simp only [Session.setData]
    rw [lookupData_mergeData]
    exact foldl_scan_not_mem hk _

/-- Witness for C6 at a concrete session and payload. -/
theorem session_setData_merges_witness :
    lookupData ((Session.setData ⟨"s", "web", "sec", [("a", 1), ("b", 2)], [], 5, 5⟩
      [("b", 9), ("c", 3)]).data) "b" = some 9 ∧
    lookupData ((Session.setData ⟨"s", "web", "sec", [("a", 1), ("b", 2)], [], 5, 5⟩
      [("b", 9), ("c", 3)]).data) "a" =
      lookupData ([("a", 1), ("b", 2)] : List (String × Nat)) "a" :=
  ⟨(session_setData_merges _ _ (by decide) "b").1 9 (by decide),
   (session_setData_merges _ _ (by decide) "a").2 (by decide)⟩

/-- Claim C7: invalid members are never admitted: an invalid Attribute
passed to Profile.setAttribute raises and leaves the profile unchanged,
and an invalid Event passed to Session.addEvent raises. -/
theorem invalid_members_never_admitted (p : Profile V) (a : Attribute V)
    (s : Session V) (e : Event V) (ha : a.isValid = false) (he : e.isValid = false) :
    p.setAttribute a = (p, some "Attribute is not valid") ∧
    s.addEvent e = .error "Event is not valid" := by
  constructor
  · simp [Profile.setAttribute, Profile.setAttributesLoop, ha]
  · simp [Session.addEvent, he]

/-- Witness for C7: an attribute with an empty name and an event without a
definitionId are rejected without being stored. -/
theorem invalid_members_never_admitted_witness :
    Profile.setAttribute (V := Nat) ⟨"p", [], []⟩ ⟨"app", "sec", "", 1⟩ =
      (⟨"p", [], []⟩, some "Attribute is not valid") ∧
    Session.addEvent (V := Nat) ⟨"s", "web", "sec", [], [], 5, 5⟩ ⟨"e1", "", [], 5, 5⟩ =
      .error "Event is not valid" :=
  invalid_members_never_admitted ⟨"p", [], []⟩ ⟨"app", "sec", "", 1⟩
    ⟨"s", "web", "sec", [], [], 5, 5⟩ ⟨"e1", "", [], 5, 5⟩ (by decide) (by decide)

/-- Claim C10: setSession with a valid session whose id already exists in
the profile leaves the session collection unchanged (the existing session
is neither replaced nor is the argument inserted) and returns the argument
itself rather than the stored session. -/
theorem setSession_existing_keeps_collection (p : Profile V) (s t : Session V)
    (hv : s.isValid = true) (hex : p.getSession s.id = some t) :
    p.setSession s = .ok (p, s) := by
  simp [Profile.setSession, hv, hex]

/-- Witness for C10: the stored session differs from the argument in its
data, yet the collection is untouched and the argument is returned. -/
theorem setSession_existing_keeps_collection_witness :
    Profile.setSession (V := Nat)
      ⟨"p", [], [⟨"s1", "web", "sec", [("old", 1)], [], 5, 5⟩]⟩
      ⟨"s1", "web", "sec", [("new", 2)], [], 6, 6⟩ =
    .ok (⟨"p", [], [⟨"s1", "web", "sec", [("old", 1)], [], 5, 5⟩]⟩,
         ⟨"s1", "web", "sec", [("new", 2)], [], 6, 6⟩) :=
  setSession_existing_keeps_collection _ _ ⟨"s1", "web", "sec", [("old", 1)], [], 5, 5⟩
    (by decide) (by decide)

/-- Claim C8: bulk admission partially applies: when a batch starts with
valid attributes and a later entry is invalid, setAttributes stops with
the error while the earlier valid entries have already been committed —
the state carried next to the error is exactly the state a run over the
valid prefix alone produces (and that prefix run raises nothing). -/
theorem setAttributes_bulk_partial_apply (p : Profile V) (good : List (Attribute V))
    (bad : Attribute V) (rest : List (Attribute V))
    (hgood : ∀ a ∈ good, a.isValid = true) (hbad : bad.isValid = false) :
    p.setAttributesLoop (good ++ bad :: rest) =
      ((p.setAttributesLoop good).1, some "Attribute is not valid") ∧
    (p.setAttributesLoop good).2 = none := by
  rw [setAttributesLoop_append_valid good _ p hgood, setAttributesLoop_all_valid good p hgood]
  exact ⟨by simp [Profile.setAttributesLoop, hbad], rfl⟩

/-- Witness for C8: a valid attribute followed by an invalid one; the
valid one is committed, the call errors. -/
theorem setAttributes_bulk_partial_apply_witness :
    Profile.setAttributesLoop (V := Nat) ⟨"p", [], []⟩
        ([⟨"app", "sec", "x", 1⟩] ++ ⟨"app", "sec", "", 2⟩ :: []) =
      ((Profile.setAttributesLoop (V := Nat) ⟨"p", [], []⟩ [⟨"app", "sec", "x", 1⟩]).1,
        some "Attribute is not valid") ∧
    (Profile.setAttributesLoop (V := Nat) ⟨"p", [], []⟩ [⟨"app", "sec", "x", 1⟩]).2 = none :=
  setAttributes_bulk_partial_apply ⟨"p", [], []⟩ [⟨"app", "sec", "x", 1⟩]
    ⟨"app", "sec", "", 2⟩ [] (by decide) (by decide)

/-- Claim C1: attribute reconciliation in Profile.merge is a local-wins
union: in the merged profile, a key present in the local profile keeps the
local value (whether or not the remote side has it), and a key absent
locally gets the remote binding. -/
theorem merge_attributes_local_wins (p1 p2 : Profile V) (hid : p1.id = p2.id)
    (hv1 : ∀ a ∈ p1.attributes, a.isValid = true)
    (hv2 : ∀ a ∈ p2.attributes, a.isValid = true)
    (hk1 : (attrKeys p1.attributes).Nodup)
    (hk2 : (attrKeys p2.attributes).Nodup)
    (hs : ∀ s ∈ p1.sessions, s.isValid = true ∧ ∀ e ∈ s.events, e.isValid = true) :
    ∃ p', p1.merge p2 = .ok p' ∧
      ∀ app sec name,
        (p1.attrValue app sec name = none →
          p'.attrValue app sec name = p2.attrValue app sec name) ∧
        (∀ v, p1.attrValue app sec name = some v → p'.attrValue app sec name = some v) := by
  obtain ⟨p', hok, hattrs, _⟩ := mergeLocalSessions_ok p1.sessions
    { p1.attributes.foldl admitOne (p2.attributes.foldl admitOne p1) with
      sessions := p2.sessions } hs
  refine ⟨p', by rw [merge_eq_ok p1 p2 hid hv1 hv2]; exact hok, ?_⟩
  intro app sec name
  have hfind : p'.findAttr app sec name =
      p1.attributes.foldl (admitScan app sec name)
        (p2.attributes.foldl (admitScan app sec name) (p1.findAttr app sec name)) := by
    show listFindAttr p'.attributes app sec name = _
    rw [hattrs]
    show (p1.attributes.foldl admitOne (p2.attributes.foldl admitOne p1)).findAttr app sec name = _
    rw [findAttr_foldl_admitOne, findAttr_foldl_admitOne]
  constructor
  · intro hnone
    have hf1 : p1.findAttr app sec name = none := by
      cases hc : p1.findAttr app sec name with
      | none => rfl
      | some g => rw [Profile.attrValue, hc] at hnone; cases hnone
    have hnm : ∀ a ∈ p1.attributes, ¬(a.collectApp = app ∧ a.sectionName = sec ∧ a.name = name) :=
      (listFindAttr_eq_none_iff _ _ _ _).1 hf1
    rw [Profile.attrValue, hfind, admitScan_not_mem hnm]
    cases hc2 : p2.findAttr app sec name with
    | none =>
      have hnm2 : ∀ a ∈ p2.attributes,
          ¬(a.collectApp = app ∧ a.sectionName = sec ∧ a.name = name) :=
        (listFindAttr_eq_none_iff _ _ _ _).1 hc2
      rw [admitScan_not_mem hnm2, hf1, Profile.attrValue, hc2]
    | some g =>
      have hmem : g ∈ p2.attributes := List.mem_of_find?_eq_some hc2
      have hpred := List.find?_some hc2
      simp only [Bool.and_eq_true, beq_iff_eq] at hpred
      obtain ⟨g2, hg2, hgv⟩ := admitScan_mem hk2 hmem ⟨hpred.1.2, hpred.2, hpred.1.1⟩
        (p1.findAttr app sec name)
      rw [hg2, Profile.attrValue, hc2]
      simp [hgv]
  · intro v hsome
    obtain ⟨g, hf1, hgv⟩ : ∃ g, p1.findAttr app sec name = some g ∧ g.value = v := by
      cases hc : p1.findAttr app sec name with
      | none => rw [Profile.attrValue, hc] at hsome; cases hsome
      | some g =>
        rw [Profile.attrValue, hc] at hsome
        exact ⟨g, rfl, by simpa using hsome⟩
    have hmem : g ∈ p1.attributes := List.mem_of_find?_eq_some hf1
    have hpred := List.find?_some hf1
    simp only [Bool.and_eq_true, beq_iff_eq] at hpred
    obtain ⟨g2, hg2, hgv2⟩ := admitScan_mem hk1 hmem ⟨hpred.1.2, hpred.2, hpred.1.1⟩
      (p2.attributes.foldl (admitScan app sec name) (p1.findAttr app sec name))
    rw [Profile.attrValue, hfind, hg2]
    simp [hgv2, hgv]

/-- Witness for C1: the shared key keeps the local value 1, the
remote-only key arrives with the remote value 7. -/
theorem merge_attributes_local_wins_witness :
    ∃ p', Profile.merge (V := Nat)
        ⟨"p", [⟨"app", "sec", "x", 1⟩], []⟩
        ⟨"p", [⟨"app", "sec", "x", 2⟩, ⟨"app", "sec", "y", 7⟩], []⟩ = .ok p' ∧
      ∀ app sec name,
        (Profile.attrValue (V := Nat) ⟨"p", [⟨"app", "sec", "x", 1⟩], []⟩ app sec name = none →
          p'.attrValue app sec name =
            Profile.attrValue (V := Nat)
              ⟨"p", [⟨"app", "sec", "x", 2⟩, ⟨"app", "sec", "y", 7⟩], []⟩ app sec name) ∧
        (∀ v, Profile.attrValue (V := Nat) ⟨"p", [⟨"app", "sec", "x", 1⟩], []⟩
            app sec name = some v → p'.attrValue app sec name = some v) :=
  merge_attributes_local_wins ⟨"p", [⟨"app", "sec", "x", 1⟩], []⟩
    ⟨"p", [⟨"app", "sec", "x", 2⟩, ⟨"app", "sec", "y", 7⟩], []⟩
    (by decide) (by decide) (by decide) (by decide) (by decide) (by decide)

theorem mergeLocalSessions_two (p : Profile V) (s1 s2 : Session V) (hps : p.sessions = [s2])
    (hne : s1.id ≠ s2.id) (hval : s1.isValid = true) :
    Profile.mergeLocalSessions p [s1] = .ok { p with sessions := [s2, s1] } := by
  have hbeq : (s2.id == s1.id) = false := beq_eq_false_iff_ne.2 (Ne.symm hne)
  have hget : p.getSession s1.id = none := by
    simp [Profile.getSession, hps, hbeq]
  simp [Profile.mergeLocalSessions, hget, Profile.setSession, hval, hps]

/-- Claim C2: session reconciliation in Profile.merge is a union keyed by
session id: local profile holding only S1 and remote holding only S2 with
a different id merge into a profile holding S2 followed by S1, each a full
copy with all its events. -/
theorem merge_session_union (p1 p2 : Profile V) (s1 s2 : Session V)
    (hid : p1.id = p2.id)
    (hv1 : ∀ a ∈ p1.attributes, a.isValid = true)
    (hv2 : ∀ a ∈ p2.attributes, a.isValid = true)
    (hs1 : p1.sessions = [s1]) (hs2 : p2.sessions = [s2])
    (hne : s1.id ≠ s2.id) (hval : s1.isValid = true) :
    ∃ p', p1.merge p2 = .ok p' ∧ p'.sessions = [s2, s1] := by
  rw [merge_eq_ok p1 p2 hid hv1 hv2, hs1, hs2]
  exact ⟨_, mergeLocalSessions_two _ s1 s2 rfl hne hval, rfl⟩

/-- Witness for C2 at concrete one-session profiles; the local session
carries an event and survives wholesale. -/
theorem merge_session_union_witness :
    ∃ p', Profile.merge (V := Nat)
        ⟨"p", [], [⟨"s1", "web", "sec", [], [⟨"e1", "d1", [], 5, 5⟩], 5, 5⟩]⟩
        ⟨"p", [], [⟨"s2", "web", "sec", [], [], 6, 6⟩]⟩ = .ok p' ∧
      p'.sessions = [⟨"s2", "web", "sec", [], [], 6, 6⟩,
        ⟨"s1", "web", "sec", [], [⟨"e1", "d1", [], 5, 5⟩], 5, 5⟩] :=
  merge_session_union
    ⟨"p", [], [⟨"s1", "web", "sec", [], [⟨"e1", "d1", [], 5, 5⟩], 5, 5⟩]⟩
    ⟨"p", [], [⟨"s2", "web", "sec", [], [], 6, 6⟩]⟩
    ⟨"s1", "web", "sec", [], [⟨"e1", "d1", [], 5, 5⟩], 5, 5⟩
    ⟨"s2", "web", "sec", [], [], 6, 6⟩
    (by decide) (by decide) (by decide) (by decide) (by decide) (by decide) (by decide)

theorem mergeLocalSessions_shared (p : Profile V) (ls ns : Session V)
    (hps : p.sessions = [ns]) (hsid : ls.id = ns.id)
    (hev : ∀ e ∈ ls.events, e.isValid = true) :
    Profile.mergeLocalSessions p [ls] =
      .ok { p with sessions := [{ ns.setData ls.data with
        events := ls.events.foldl stepEvents ns.events }] } := by
  have hbeq : (ns.id == ls.id) = true := beq_iff_eq.2 hsid.symm
  have hget : p.getSession ls.id = some ns := by simp [Profile.getSession, hps, hbeq]
  simp only [Profile.mergeLocalSessions, hget]
  rw [mergeSessionEvents_eq _ _ hev]
  dsimp only
  rw [hps]
  simp [updateSessionById, hsid.symm, Profile.mergeLocalSessions, Session.setData]

/-- Claim C3: event reconciliation in Profile.merge for a session id
present on both sides: a local event with a remote id match ends up with
the local data while every other remote field, definitionId included, is
the remote event's; a local event with no remote match is appended as a
new event to the merged session. -/
theorem merge_event_reconciliation (p1 p2 : Profile V) (ls ns : Session V)
    (hid : p1.id = p2.id)
    (hv1 : ∀ a ∈ p1.attributes, a.isValid = true)
    (hv2 : ∀ a ∈ p2.attributes, a.isValid = true)
    (hs1 : p1.sessions = [ls]) (hs2 : p2.sessions = [ns])
    (hsid : ls.id = ns.id)
    (hev : ∀ e ∈ ls.events, e.isValid = true)
    (hnd : (ls.events.map Event.id).Nodup) :
    ∃ p' rs, p1.merge p2 = .ok p' ∧ p'.getSession ls.id = some rs ∧
      ∀ le ∈ ls.events,
        (∀ ne, listFindEvent ns.events le.id = some ne →
          rs.getEvent le.id = some { ne with data := le.data }) ∧
        (listFindEvent ns.events le.id = none → rs.getEvent le.id = some le) := by
  rw [merge_eq_ok p1 p2 hid hv1 hv2, hs1, hs2]
  rw [mergeLocalSessions_shared _ ls ns rfl hsid hev]
  refine ⟨_, { ns.setData ls.data with events := ls.events.foldl stepEvents ns.events },
    rfl, ?_, ?_⟩
  · simp [Profile.getSession, Session.setData, beq_iff_eq, hsid.symm]
  · intro le hle
    have hevents : Session.getEvent
        { ns.setData ls.data with events := ls.events.foldl stepEvents ns.events } le.id =
        ls.events.foldl (eventScan le.id) (listFindEvent ns.events le.id) := by
      rw [getEvent_eq_listFind]
      exact listFindEvent_foldl_stepEvents ls.events ns.events le.id
    rw [hevents, eventScan_mem hnd hle rfl]
    constructor
    · intro ne hne
      rw [hne]
    · intro hnone
      rw [hnone]

/-- Witness for C3: the shared event keeps local data and remote
definitionId, the local-only event is appended. -/
theorem merge_event_reconciliation_witness :
    ∃ p' rs, Profile.merge (V := Nat)
        ⟨"p", [], [⟨"s", "web", "sec", [], [⟨"e1", "d1", [("k", 1)], 5, 5⟩], 5, 5⟩]⟩
        ⟨"p", [], [⟨"s", "web", "sec", [],
          [⟨"e1", "dR", [("k", 2)], 6, 6⟩, ⟨"e2", "d2", [], 6, 6⟩], 6, 6⟩]⟩ = .ok p' ∧
      p'.getSession "s" = some rs ∧
      ∀ le ∈ [(⟨"e1", "d1", [("k", 1)], 5, 5⟩ : Event Nat)],
        (∀ ne, listFindEvent [⟨"e1", "dR", [("k", 2)], 6, 6⟩,
            (⟨"e2", "d2", [], 6, 6⟩ : Event Nat)] le.id = some ne →
          rs.getEvent le.id = some { ne with data := le.data }) ∧
        (listFindEvent [⟨"e1", "dR", [("k", 2)], 6, 6⟩,
            (⟨"e2", "d2", [], 6, 6⟩ : Event Nat)] le.id = none →
          rs.getEvent le.id = some le) :=
  merge_event_reconciliation
    ⟨"p", [], [⟨"s", "web", "sec", [], [⟨"e1", "d1", [("k", 1)], 5, 5⟩], 5, 5⟩]⟩
    ⟨"p", [], [⟨"s", "web", "sec", [],
      [⟨"e1", "dR", [("k", 2)], 6, 6⟩, ⟨"e2", "d2", [], 6, 6⟩], 6, 6⟩]⟩
    ⟨"s", "web", "sec", [], [⟨"e1", "d1", [("k", 1)], 5, 5⟩], 5, 5⟩
    ⟨"s", "web", "sec", [], [⟨"e1", "dR", [("k", 2)], 6, 6⟩, ⟨"e2", "d2", [], 6, 6⟩], 6, 6⟩
    (by decide) (by decide) (by decide) (by decide) (by decide) (by decide)
    (by decide) (by decide)

/-- Claim C4: merging two Profiles with different ids fails synchronously
with the identity error before any mutation: the result is the error
alone, and in this state-passing embedding no updated profile state is
produced, so neither operand's attributes or sessions change.  (That the
argument must be a Profile instance is enforced by typing here.) -/
theorem merge_id_mismatch (p1 p2 : Profile V) (h : p1.id ≠ p2.id) :
    p1.merge p2 = .error "Profile IDs should be similar" := by
  have hne : p1.getId ≠ p2.getId := by
    by_cases h1 : p1.id = "" <;> by_cases h2 : p2.id = "" <;>
      simp [Profile.getId, h1, h2] <;> simp_all
  simp [Profile.merge, hne]

/-- Witness for C4 at two concrete profiles with different ids. -/
theorem merge_id_mismatch_witness :
    Profile.merge (V := Nat) ⟨"p1", [], []⟩ ⟨"p2", [], []⟩ =
      .error "Profile IDs should be similar" :=
  merge_id_mismatch ⟨"p1", [], []⟩ ⟨"p2", [], []⟩ (by decide)

/-- Claim C9, evaluated at the failing input: with caching allowed
(noCache false) and an unexpired value stored under the settings key, the
getAppSettings of src/index.js still issues the remote request and
returns the remote value (2) instead of the cached one (1) — its cache
read is guarded by the negated flag — while the getAppSettings of
libs/index.js answers the same situation from the cache without a
request, as the claim describes. -/
theorem old_getAppSettings_skips_cache :
    (oldGetAppSettings (V := Nat) "app" false ⟨600, [("settingsapp", 1, 0)]⟩ 10 none
        (some ⟨200, some ⟨"", some 2⟩⟩)).requested = true ∧
    (oldGetAppSettings (V := Nat) "app" false ⟨600, [("settingsapp", 1, 0)]⟩ 10 none
        (some ⟨200, some ⟨"", some 2⟩⟩)).settings = some 2 ∧
    Cache.get (V := Nat) ⟨600, [("settingsapp", 1, 0)]⟩ 10 "settingsapp" = some 1 ∧
    getAppSettings (V := Nat) ⟨"app", false, ⟨600, [("settings-app", 1, 0)]⟩⟩ 10 none
        (some ⟨200, some ⟨"", some 2⟩⟩) =
      { requested := false, error := none, settings := some 1,
        cache := ⟨600, [("settings-app", 1, 0)]⟩ } :=
  ⟨rfl, rfl, rfl, rfl⟩

end Inno
